import Mathlib

/-!
Shallow embedding of the `ivly` task tracker's core (src/src/task.rs,
src/src/tui.rs, src/src/op.rs) and proofs about the interactive
move/edit session and the task data model.

Machine integers (`u64` timestamps) are modelled as `Nat`; the one place the
source performs an unguarded `u64` subtraction is modelled fallibly (see
`Ivly.u64_sub`).  The ambient clock `crate::now()` and the `nanoid` id
generator are modelled as explicit parameters.  Fallible list accesses
(`Vec::remove`, `Vec::insert` out of bounds, which panic in Rust) are
modelled with `Option`, `none` being the panic.
-/

namespace Ivly

/-- src/src/task.rs `Done`: completion state, seconds since the UNIX epoch. -/
structure Done where
  completed : Nat
deriving DecidableEq

/-- src/src/task.rs `Todo`: open state with an optional completion marker. -/
structure Todo where
  marked : Option Done
deriving DecidableEq

/-- src/src/task.rs `Task<S>`: a task record, generic over its status tag. -/
structure Task (S : Type) where
  id : String
  description : String
  note : String
  created : Nat
  tags : List String
  state : S
deriving DecidableEq

/-- src/src/task.rs `TodoTask = Task<Todo>`. -/
abbrev TodoTask := Task Todo

/-- src/src/task.rs `DoneTask = Task<Done>`. -/
abbrev DoneTask := Task Done

/-- Rust `u64` subtraction `a - b` as written in the source (no guard):
`none` models the underflow case (a panic in debug builds, a wrapped value in
release builds) - in neither build is the result clamped to zero. -/
def u64_sub (a b : Nat) : Option Nat :=
  if b ≤ a then some (a - b) else none

/-- Rust `u64::checked_sub`: `none` exactly when the subtraction would
underflow. -/
def checked_sub (a b : Nat) : Option Nat :=
  if b ≤ a then some (a - b) else none

/-- src/src/task.rs `Done::duration_since_completed` (result in seconds, the
clock `crate::now()` passed explicitly):
`crate::now().checked_sub(self.completed).unwrap_or_default()`. -/
def Done.duration_since_completed (now : Nat) (d : Done) : Nat :=
  (checked_sub now d.completed).getD 0

/-- src/src/task.rs `Task::duration_since_creation` (result in seconds, clock
passed explicitly): the source computes `(crate::now() - self.created).max(0)`
with an unguarded `u64` subtraction, so the result is `none` (underflow)
whenever `created > now`; the `.max(0)` is applied to the non-underflowing
result exactly as written. -/
def Task.duration_since_creation {S : Type} (now : Nat) (t : Task S) : Option Nat :=
  (u64_sub now t.created).map (fun s => max s 0)

/-- src/src/task.rs `TodoTask::new` (the `nanoid` id and `crate::now()`
creation stamp of the `Default` impl are passed explicitly). -/
def TodoTask.new (description : String) (id : String) (created : Nat) : TodoTask :=
  { id := id, description := description, note := "", created := created,
    tags := [], state := { marked := none } }

/-- src/src/task.rs `TodoTask::finish` (clock passed explicitly): sets the
embedded completion marker only when it is absent. -/
def TodoTask.finish (t : TodoTask) (now : Nat) : TodoTask :=
  if t.state.marked.isNone then
    { t with state := { marked := some { completed := now } } }
  else t

/-- src/src/task.rs `TodoTask::is_finished`. -/
def TodoTask.is_finished (t : TodoTask) : Bool :=
  t.state.marked.isSome

/-- src/src/task.rs `TodoTask::complete` (clock passed explicitly): converts
an open record into a done record, reusing the embedded marker when present
and stamping `now` otherwise. -/
def TodoTask.complete (t : TodoTask) (now : Nat) : DoneTask :=
  { id := t.id, description := t.description, note := t.note,
    created := t.created, tags := t.tags,
    state := t.state.marked.getD { completed := now } }

/-- A concrete unmarked task used by scenario theorems and witnesses. -/
def mkTask (d : String) : TodoTask :=
  { id := d, description := d, note := "", created := 0, tags := [],
    state := { marked := none } }

/-- A concrete task whose completion marker is set, used by witnesses. -/
def mkMarkedTask : TodoTask :=
  { id := "m", description := "m", note := "", created := 0, tags := [],
    state := { marked := some { completed := 7 } } }

/-- Rust `String::push`: appends one character. -/
def string_push (s : String) (c : Char) : String :=
  String.mk (s.data ++ [c])

/-- Rust `String::pop` used for its effect only: drops the last character,
leaving an empty string unchanged. -/
def string_pop (s : String) : String :=
  String.mk s.data.dropLast

/-- Character-list core of Rust `str::split(',')`: splits on every comma,
keeping empty segments, so the empty input yields one empty segment. -/
def splitCommaChars : List Char → List (List Char)
  | [] => [[]]
  | c :: cs =>
    if c = ',' then [] :: splitCommaChars cs
    else
      match splitCommaChars cs with
      | [] => [[c]]
      | s :: ss => (c :: s) :: ss

/-- Rust `val.split(',').map(String::from).collect()` as used in
src/src/tui.rs `Move::handle_editing`: no trimming, no deduplication, no
empty-string filtering. -/
def split_comma (s : String) : List String :=
  (splitCommaChars s.data).map String.mk

/-- src/src/main.rs `tag_csv`: folds the tags into a comma-terminated string
and pops the trailing comma. -/
def tag_csv (tags : List String) : String :=
  string_pop (tags.foldl (fun s x => s ++ x ++ ",") "")

/-- src/src/tui.rs `Exit`: the session outcome; `Continue` means not yet
decided. -/
inductive SessionExit
  | Continue
  | Save
  | Forget
deriving DecidableEq

/-- src/src/tui.rs `Editing`: the modal edit overlay, either one field of one
task with its text buffer, or `None` (viewing). -/
inductive Editing
  | Desc (idx : Nat) (val : String)
  | Note (idx : Nat) (val : String)
  | Tags (idx : Nat) (val : String)
  | None
deriving DecidableEq

/-- src/src/tui.rs `Editing::is_editing`. -/
def Editing.is_editing : Editing → Bool
  | .None => false
  | _ => true

/-- src/src/tui.rs `Editing::push_char`: appends to the buffer when a buffer
is active (`Editing::val` returning the active buffer). -/
def Editing.push_char : Editing → Char → Editing
  | .Desc i v, c => .Desc i (string_push v c)
  | .Note i v, c => .Note i (string_push v c)
  | .Tags i v, c => .Tags i (string_push v c)
  | .None, _ => .None

/-- src/src/tui.rs `Editing::pop_char`: removes the last buffer character
when a buffer is active; a no-op on an empty buffer. -/
def Editing.pop_char : Editing → Editing
  | .Desc i v => .Desc i (string_pop v)
  | .Note i v => .Note i (string_pop v)
  | .Tags i v => .Tags i (string_pop v)
  | .None => .None

/-- The crossterm key events the dispatcher in src/src/tui.rs inspects;
`other` stands for every unmapped key code. -/
inductive KeyCode
  | Char (c : Char)
  | Up
  | Down
  | Home
  | End
  | Enter
  | Backspace
  | other
deriving DecidableEq

/-- The environment the session reads from outside: the `crate::now()` clock
and the `nanoid` fresh id, consumed only when adding a task. -/
structure Env where
  now : Nat
  fresh_id : String
deriving DecidableEq

/-- src/src/tui.rs `Move`: the session state. `selected` is the ratatui
`TableState` selection (the cursor); the `&mut TodoTasks` list is carried by
value and threaded through the step functions. -/
structure MoveSt where
  tasks : List TodoTask
  selected : Option Nat
  exit : SessionExit
  show_help : Bool
  editing : Editing
deriving DecidableEq

/-- src/src/tui.rs `Move::new`: initial session state with the cursor on
row 0. -/
def Move.new (tasks : List TodoTask) : MoveSt :=
  { tasks := tasks, selected := some 0, exit := .Continue,
    show_help := false, editing := .None }

/-- The `if let Some(task) = self.tasks.get_mut(idx) { ... }` pattern of
src/src/tui.rs: applies `f` to the record at `idx` in place, a no-op when
`idx` is out of bounds. -/
def setTask (l : List TodoTask) (idx : Nat) (f : TodoTask → TodoTask) : List TodoTask :=
  match l[idx]? with
  | some t => l.set idx (f t)
  | none => l

/-- src/src/tui.rs `Move::start_editing_desc`. -/
def start_editing_desc (st : MoveSt) : MoveSt :=
  let idx := st.selected.getD 0
  let val := ((st.tasks[idx]?).map Task.description).getD ""
  { st with editing := .Desc idx val }

/-- src/src/tui.rs `Move::start_editing_note`. -/
def start_editing_note (st : MoveSt) : MoveSt :=
  let idx := st.selected.getD 0
  let val := ((st.tasks[idx]?).map Task.note).getD ""
  { st with editing := .Note idx val }

/-- src/src/tui.rs `Move::start_editing_tags`: the tag list is serialized as
a comma-joined string for editing. -/
def start_editing_tags (st : MoveSt) : MoveSt :=
  let idx := st.selected.getD 0
  let val := ((st.tasks[idx]?).map (fun t => tag_csv t.tags)).getD ""
  { st with editing := .Tags idx val }

/-- src/src/tui.rs `Move::handle_editing`: the Editing-mode dispatcher.
`Enter` takes the buffer (leaving `Editing::None`) and writes it into the
target record's field when the record exists; `Backspace` pops, characters
append, everything else is ignored. -/
def handle_editing (key_code : KeyCode) (st : MoveSt) : MoveSt :=
  match key_code with
  | .Enter =>
    match st.editing with
    | .None => { st with editing := .None }
    | .Desc idx val =>
      { st with editing := .None,
                tasks := setTask st.tasks idx (fun t => { t with description := val }) }
    | .Note idx val =>
      { st with editing := .None,
                tasks := setTask st.tasks idx (fun t => { t with note := val }) }
    | .Tags idx val =>
      { st with editing := .None,
                tasks := setTask st.tasks idx (fun t => { t with tags := split_comma val }) }
  | .Backspace => { st with editing := st.editing.pop_char }
  | .Char c => { st with editing := st.editing.push_char c }
  | _ => st

/-- Core of src/src/tui.rs `Move::move_` on the task list: computes the
insertion index (decremented by one when the source index is smaller), then
`Vec::remove(i)` followed by `Vec::insert(before, t)`; `none` models either
call panicking on an out-of-range index. -/
def reposition {α : Type} (l : List α) (i b0 : Nat) : Option (List α × Nat) :=
  let b := if i < b0 then b0 - 1 else b0
  match l[i]? with
  | none => none
  | some t =>
    let ts := l.eraseIdx i
    if b ≤ ts.length then some (ts.insertIdx b t, b) else none

/-- src/src/tui.rs `Move::move_`: repositions the record under the cursor and
moves the cursor with it; a no-op when nothing is selected. -/
def Move.move_ (st : MoveSt) (before : Nat → Nat) : Option MoveSt :=
  match st.selected with
  | none => some st
  | some i =>
    (reposition st.tasks i (before i)).map
      (fun p => { st with tasks := p.1, selected := some p.2 })

/-- The Viewing-mode dispatch of src/src/tui.rs `Move::handle_events`: the
key match exactly as the source writes it (`tlen` is read once at entry; `D`
keeps the cursor via `i.saturating_sub(0)`; `none` models a
`Vec::remove`/`Vec::insert` panic). -/
def handle_viewing (env : Env) (key : KeyCode) (st : MoveSt) : Option MoveSt :=
  let tlen := st.tasks.length
  match key with
  | .Char 'q' => some { st with exit := .Save }
  | .Char 'X' => some { st with exit := .Forget }
  | .Up => some { st with selected := some (st.selected.getD 0 - 1) }
  | .Down => some { st with selected := some (min (st.selected.getD 0 + 1) tlen) }
  | .Home => some { st with selected := some 0 }
  | .End => some { st with selected := some (tlen - 1) }
  | .Char '=' => Move.move_ st (fun i => i - 1)
  | .Char '-' => Move.move_ st (fun i => min (i + 2) tlen)
  | .Char '1' => Move.move_ st (fun _ => 0)
  | .Char '2' => Move.move_ st (fun _ => min 1 tlen)
  | .Char '3' => Move.move_ st (fun _ => min 2 tlen)
  | .Char '4' => Move.move_ st (fun _ => min 3 tlen)
  | .Char '5' => Move.move_ st (fun _ => min 4 tlen)
  | .Char '6' => Move.move_ st (fun _ => min 5 tlen)
  | .Char 'D' =>
    match st.selected with
    | some i =>
      match st.tasks[i]? with
      | some _ => some { st with tasks := st.tasks.eraseIdx i, selected := some (i - 0) }
      | none => none
    | none => some st
  | .Char 'a' =>
    let i := tlen
    let st2 := { st with tasks := st.tasks ++ [TodoTask.new "" env.fresh_id env.now],
                         selected := some i }
    some (start_editing_desc st2)
  | .Char '?' => some { st with show_help := !st.show_help }
  | .Char 'e' => some (start_editing_desc st)
  | .Char 'n' => some (start_editing_note st)
  | .Char 't' => some (start_editing_tags st)
  | _ => some st

/-- src/src/tui.rs `Move::handle_events` for one key-press event: routes to
`handle_editing` while editing, otherwise to the Viewing dispatch
`handle_viewing` (the body of the source's `else` branch, split out as its
own definition). -/
def handle_events (env : Env) (key : KeyCode) (st : MoveSt) : Option MoveSt :=
  if st.editing.is_editing then some (handle_editing key st)
  else handle_viewing env key st

/-- src/src/tui.rs `Move::run_loop`: processes events in arrival order while
the outcome is undecided (rendering is display-only and modelled as the
identity); `none` models a panic inside `handle_events`. -/
def run_loop : MoveSt → List (Env × KeyCode) → Option MoveSt
  | st, [] => some st
  | st, e :: rest =>
    if st.exit = SessionExit.Continue then
      (handle_events e.1 e.2 st).bind (fun st2 => run_loop st2 rest)
    else some st

/-- src/src/tui.rs `Move::run` result mapping: `Continue`/`Save` report save,
`Forget` reports discard. -/
def run_result (st : MoveSt) : Bool :=
  match st.exit with
  | .Continue | .Save => true
  | .Forget => false

/-- src/src/op.rs `move_interactive`: reads the open-task list from the
store, runs the session on it (mutating the in-memory list in place), and
writes the session's list back only when the session reported save; the
result is the store's open-task list afterwards. -/
def move_interactive (store : List TodoTask) (events : List (Env × KeyCode)) :
    Option (List TodoTask) :=
  (run_loop (Move.new store) events).map
    (fun st => if run_result st then st.tasks else store)

/-- Cursor validity from the spec: the selection, when present, lies in
`[0, len]` of the current list. -/
def cursor_ok (st : MoveSt) : Bool :=
  match st.selected with
  | some i => i ≤ st.tasks.length
  | none => true

/-- Iterates the delete-task key `n` times through the dispatcher. -/
def iterD (env : Env) : Nat → MoveSt → Option MoveSt
  | 0, st => some st
  | n + 1, st => (handle_events env (KeyCode.Char 'D') st).bind (iterD env n)

/-- A fixed environment for scenario theorems; the claims it is used in never
add a task, so its values are irrelevant. -/
def env0 : Env :=
  { now := 0, fresh_id := "" }

/-- C7: for every open task record, `complete` preserves id, description,
note, created and tags verbatim, and the completion timestamp is the embedded
marker's timestamp when the marker is present and the conversion-time clock
value when it is absent. -/
theorem c7_complete_preserves_fields (t : TodoTask) (now : Nat) :
    (t.complete now).id = t.id ∧
    (t.complete now).description = t.description ∧
    (t.complete now).note = t.note ∧
    (t.complete now).created = t.created ∧
    (t.complete now).tags = t.tags ∧
    (∀ d, t.state.marked = some d → (t.complete now).state.completed = d.completed) ∧
    (t.state.marked = none → (t.complete now).state.completed = now) := by
  refine ⟨rfl, rfl, rfl, rfl, rfl, ?_, ?_⟩
  · intro d hd
    simp [TodoTask.complete, hd]
  · intro hd
    simp [TodoTask.complete, hd, Option.getD]

/-- Witness for C7 at concrete inputs: a marked task keeps its marker's
timestamp, an unmarked task is stamped with the conversion clock. -/
theorem c7_complete_preserves_fields_witness :
    mkMarkedTask.state.marked = some { completed := 7 } ∧
    (mkMarkedTask.complete 99).state.completed = 7 ∧
    (mkTask "A").state.marked = none ∧
    ((mkTask "A").complete 99).state.completed = 99 :=
  ⟨by decide,
   (c7_complete_preserves_fields mkMarkedTask 99).2.2.2.2.2.1 { completed := 7 } (by decide),
   by decide,
   (c7_complete_preserves_fields (mkTask "A") 99).2.2.2.2.2.2 (by decide)⟩

/-- C8: `finish` is idempotent: a second call at any later clock value leaves
the record exactly as the first call left it, and once the marker is set
`finish` never clears or changes it. -/
theorem c8_finish_idempotent (t : TodoTask) (n1 n2 : Nat) :
    (t.finish n1).finish n2 = t.finish n1 ∧
    ((t.finish n1).finish n2).state.marked = (t.finish n1).state.marked ∧
    (∀ d, t.state.marked = some d → t.finish n1 = t) := by
  refine ⟨?_, ?_, ?_⟩
  · cases h : t.state.marked <;> simp [TodoTask.finish, h]
  · cases h : t.state.marked <;> simp [TodoTask.finish, h]
  · intro d hd
    simp [TodoTask.finish, hd]

/-- Witness for C8 at a concrete input: re-finishing a marked task at a later
clock is a no-op. -/
theorem c8_finish_idempotent_witness :
    ((mkTask "A").finish 3).finish 10 = (mkTask "A").finish 3 ∧
    mkMarkedTask.state.marked = some { completed := 7 } ∧
    mkMarkedTask.finish 10 = mkMarkedTask :=
  ⟨(c8_finish_idempotent (mkTask "A") 3 10).1,
   by decide,
   (c8_finish_idempotent mkMarkedTask 3 10).2.2 { completed := 7 } (by decide)⟩

/-- C10: `Task::duration_since_creation` subtracts without a guard, so it is
total only when `created ≤ now` and underflows (never clamps to zero) when
`created > now`; the trailing `.max(0)` is vacuous on unsigned values; by
contrast `Done::duration_since_completed` uses `checked_sub` and yields a zero
duration whenever `completed > now`. -/
theorem c10_creation_subtraction_underflows {S : Type} (t : Task S) (d : Done) (now : Nat) :
    (t.created ≤ now → Task.duration_since_creation now t = some (now - t.created)) ∧
    (now < t.created → Task.duration_since_creation now t = none) ∧
    (∀ s : Nat, max s 0 = s) ∧
    (now < d.completed → Done.duration_since_completed now d = 0) ∧
    (d.completed ≤ now → Done.duration_since_completed now d = now - d.completed) := by
  refine ⟨?_, ?_, ?_, ?_, ?_⟩
  · intro h
    simp [Task.duration_since_creation, u64_sub, h]
  · intro h
    simp [Task.duration_since_creation, u64_sub, Nat.not_le.mpr h]
  · intro s
    exact Nat.max_eq_left (Nat.zero_le s)
  · intro h
    simp [Done.duration_since_completed, checked_sub, Nat.not_le.mpr h]
  · intro h
    simp [Done.duration_since_completed, checked_sub, h]

/-- Witness for C10 at concrete inputs: a task created at time 5 queried at
time 3 underflows, while a done record completed at time 5 queried at time 3
clamps to zero. -/
theorem c10_creation_subtraction_underflows_witness :
    ((5 : Nat) ≤ 9 ∧
      Task.duration_since_creation 9 (mkMarkedTask.finish 1) = some (9 - 0)) ∧
    ((3 : Nat) < 5 ∧
      Task.duration_since_creation 3 { mkTask "A" with created := 5 } = none) ∧
    ((3 : Nat) < 5 ∧ Done.duration_since_completed 3 { completed := 5 } = 0) :=
  ⟨⟨by decide,
    (c10_creation_subtraction_underflows (mkMarkedTask.finish 1) { completed := 5 } 9).1
      (by decide)⟩,
   ⟨by decide,
    (c10_creation_subtraction_underflows { mkTask "A" with created := 5 } { completed := 5 } 3).2.1
      (by decide)⟩,
   ⟨by decide,
    (c10_creation_subtraction_underflows (mkTask "A") { completed := 5 } 3).2.2.2.1
      (by decide)⟩⟩

theorem setTask_cons_succ (a : TodoTask) (l : List TodoTask) (idx : Nat)
    (f : TodoTask → TodoTask) :
    setTask (a :: l) (idx + 1) f = a :: setTask l idx f := by
  unfold setTask
  cases h : l[idx]? <;> simp [h]

theorem setTask_length (l : List TodoTask) (idx : Nat) (f : TodoTask → TodoTask) :
    (setTask l idx f).length = l.length := by
  unfold setTask
  cases h : l[idx]? <;> simp

theorem setTask_getElem?_self (l : List TodoTask) (idx : Nat) (f : TodoTask → TodoTask) :
    (setTask l idx f)[idx]? = (l[idx]?).map f := by
  unfold setTask
  cases h : l[idx]? with
  | none => simp [h]
  | some t =>
    obtain ⟨hlt, he⟩ := List.getElem?_eq_some_iff.mp h
    simp [h, List.getElem?_set_self hlt]

theorem setTask_getElem?_ne (l : List TodoTask) (idx j : Nat) (f : TodoTask → TodoTask)
    (hne : j ≠ idx) :
    (setTask l idx f)[j]? = l[j]? := by
  unfold setTask
  cases h : l[idx]? with
  | none => rfl
  | some t => simp [List.getElem?_set_ne (Ne.symm hne)]

theorem setTask_map_id (l : List TodoTask) (idx : Nat) (f : TodoTask → TodoTask)
    (hf : ∀ t, (f t).id = t.id) :
    (setTask l idx f).map Task.id = l.map Task.id := by
  induction l generalizing idx with
  | nil => rfl
  | cons a l ih =>
    cases idx with
    | zero => simp [setTask, hf]
    | succ n => simp [setTask_cons_succ, ih]

theorem handle_events_editing (env : Env) (key : KeyCode) (st : MoveSt)
    (h : st.editing.is_editing = true) :
    handle_events env key st = some (handle_editing key st) := by
  unfold handle_events
  rw [if_pos h]

theorem handle_events_viewing (env : Env) (key : KeyCode) (st : MoveSt)
    (h : st.editing.is_editing = false) :
    handle_events env key st = handle_viewing env key st := by
  unfold handle_events
  rw [if_neg (by simp [h])]

theorem handle_viewing_delete (env : Env) (st : MoveSt) :
    handle_viewing env (KeyCode.Char 'D') st =
      match st.selected with
      | some i =>
        match st.tasks[i]? with
        | some _ => some { st with tasks := st.tasks.eraseIdx i, selected := some (i - 0) }
        | none => none
      | none => some st := rfl

theorem handle_editing_enter_desc (st : MoveSt) (idx : Nat) (val : String)
    (he : st.editing = Editing.Desc idx val) :
    handle_editing KeyCode.Enter st =
      { st with editing := Editing.None,
                tasks := setTask st.tasks idx (fun t => { t with description := val }) } := by
  obtain ⟨tasks, sel, ex, sh, ed⟩ := st
  cases he
  rfl

theorem handle_editing_enter_note (st : MoveSt) (idx : Nat) (val : String)
    (he : st.editing = Editing.Note idx val) :
    handle_editing KeyCode.Enter st =
      { st with editing := Editing.None,
                tasks := setTask st.tasks idx (fun t => { t with note := val }) } := by
  obtain ⟨tasks, sel, ex, sh, ed⟩ := st
  cases he
  rfl

theorem handle_editing_enter_tags (st : MoveSt) (idx : Nat) (val : String)
    (he : st.editing = Editing.Tags idx val) :
    handle_editing KeyCode.Enter st =
      { st with editing := Editing.None,
                tasks := setTask st.tasks idx (fun t => { t with tags := split_comma val }) } := by
  obtain ⟨tasks, sel, ex, sh, ed⟩ := st
  cases he
  rfl

theorem handle_editing_backspace (st : MoveSt) :
    handle_editing KeyCode.Backspace st = { st with editing := st.editing.pop_char } := rfl

theorem handle_editing_char (st : MoveSt) (c : Char) :
    handle_editing (KeyCode.Char c) st = { st with editing := st.editing.push_char c } := rfl

theorem insertIdx_getElem_eraseIdx {α : Type} :
    ∀ (l : List α) (i : Nat) (h : i < l.length),
      (l.eraseIdx i).insertIdx i (l.get ⟨i, h⟩) = l
  | _ :: _, 0, _ => rfl
  | a :: l, i + 1, h => by
    have h2 : i < l.length := by simpa using h
    simp only [List.eraseIdx_cons_succ, List.insertIdx_succ_cons, List.get_cons_succ]
    rw [insertIdx_getElem_eraseIdx l i h2]

/-- C9: repositioning a record onto itself (source index and adjusted target
both `i`, for any valid `i`) is a no-op through `Move::move_`: the list order
and the cursor are unchanged. -/
theorem c9_reposition_self_is_noop (st : MoveSt) (i : Nat)
    (hs : st.selected = some i) (hi : i < st.tasks.length) :
    Move.move_ st (fun _ => i) = some st := by
  have hget : st.tasks[i]? = some (st.tasks.get ⟨i, hi⟩) := by
    simp [List.getElem?_eq_getElem hi]
  have hlen : (st.tasks.eraseIdx i).length = st.tasks.length - 1 :=
    List.length_eraseIdx_of_lt hi
  have hb : i ≤ (st.tasks.eraseIdx i).length := by omega
  simp only [Move.move_, hs, reposition, Nat.lt_irrefl, if_false, hget, hb, if_true,
    Option.map_some']
  rw [insertIdx_getElem_eraseIdx st.tasks i hi]
  cases st with
  | mk tasks selected ex sh ed =>
    simp only [MoveSt.selected] at hs
    simp [hs]

/-- Witness for C9 at a concrete input: repositioning index 1 of a
three-element list onto itself changes nothing. -/
theorem c9_reposition_self_is_noop_witness :
    (Move.new [mkTask "A", mkTask "B", mkTask "C"]).selected = some 0 ∧
    (0 : Nat) < 3 ∧
    Move.move_ (Move.new [mkTask "A", mkTask "B", mkTask "C"]) (fun _ => 0) =
      some (Move.new [mkTask "A", mkTask "B", mkTask "C"]) :=
  ⟨by decide, by decide,
   c9_reposition_self_is_noop (Move.new [mkTask "A", mkTask "B", mkTask "C"]) 0
     (by decide) (by decide)⟩

/-- C4: committing a tag-list edit (`Enter` while editing the tags field of a
valid index) replaces that task's tags wholesale with the buffer split on
commas, in order, with no trimming, deduplication or empty-string filtering,
leaving every other task untouched; splitting the buffer `"x,y"` gives
`["x", "y"]` and splitting the empty buffer gives `[""]`, not `[]`. -/
theorem c4_commit_tags_splits_wholesale (st : MoveSt) (env : Env) (idx : Nat) (val : String)
    (he : st.editing = Editing.Tags idx val) (hl : idx < st.tasks.length) :
    (∃ st2, handle_events env KeyCode.Enter st = some st2 ∧
      st2.editing = Editing.None ∧
      st2.tasks.length = st.tasks.length ∧
      st2.tasks[idx]? = (st.tasks[idx]?).map (fun t => { t with tags := split_comma val }) ∧
      (∀ j, j ≠ idx → st2.tasks[j]? = st.tasks[j]?)) ∧
    split_comma "x,y" = ["x", "y"] ∧
    split_comma "" = [""] := by
  have hed : st.editing.is_editing = true := by rw [he]; rfl
  have hcommit := handle_editing_enter_tags st idx val he
  refine ⟨⟨handle_editing KeyCode.Enter st,
    handle_events_editing env KeyCode.Enter st hed, ?_, ?_, ?_, ?_⟩, by decide, by decide⟩
  · rw [hcommit]
  · rw [hcommit]
    exact setTask_length st.tasks idx _
  · rw [hcommit]
    exact setTask_getElem?_self st.tasks idx _
  · intro j hj
    rw [hcommit]
    exact setTask_getElem?_ne st.tasks idx j _ hj

/-- Witness for C4 at a concrete input: committing the buffer `"x,y"` on a
one-task list. -/
theorem c4_commit_tags_splits_wholesale_witness :
    ({ Move.new [mkTask "A"] with editing := Editing.Tags 0 "x,y" } : MoveSt).editing =
      Editing.Tags 0 "x,y" ∧
    (0 : Nat) < 1 ∧
    (∃ st2, handle_events env0 KeyCode.Enter
        { Move.new [mkTask "A"] with editing := Editing.Tags 0 "x,y" } = some st2 ∧
      st2.editing = Editing.None ∧
      st2.tasks.length =
        ({ Move.new [mkTask "A"] with editing := Editing.Tags 0 "x,y" } : MoveSt).tasks.length ∧
      st2.tasks[0]? =
        (({ Move.new [mkTask "A"] with editing := Editing.Tags 0 "x,y" } : MoveSt).tasks[0]?).map
          (fun t => { t with tags := split_comma "x,y" }) ∧
      (∀ j, j ≠ 0 →
        st2.tasks[j]? =
          ({ Move.new [mkTask "A"] with editing := Editing.Tags 0 "x,y" } : MoveSt).tasks[j]?)) :=
  ⟨by decide, by decide,
   (c4_commit_tags_splits_wholesale
     { Move.new [mkTask "A"] with editing := Editing.Tags 0 "x,y" } env0 0 "x,y"
     (by decide) (by decide)).1⟩

theorem delete_step_cursor_ok (env : Env) (st st2 : MoveSt)
    (hv : st.editing.is_editing = false)
    (h : handle_events env (KeyCode.Char 'D') st = some st2) :
    cursor_ok st2 = true := by
  rw [handle_events_viewing env (KeyCode.Char 'D') st hv, handle_viewing_delete] at h
  cases hs : st.selected with
  | none =>
    rw [hs] at h
    simp only [Option.some.injEq] at h
    subst h
    simp [cursor_ok, hs]
  | some i =>
    rw [hs] at h
    cases hg : st.tasks[i]? with
    | none =>
      simp only [hg] at h
      exact absurd h (by simp)
    | some t =>
      have hlt : i < st.tasks.length := (List.getElem?_eq_some_iff.mp hg).1
      simp only [hg, Option.some.injEq] at h
      subst h
      simp [cursor_ok, List.length_eraseIdx_of_lt hlt]
      omega

theorem delete_step_cursor_ok_of_ok (env : Env) (st st2 : MoveSt)
    (hok : cursor_ok st = true)
    (h : handle_events env (KeyCode.Char 'D') st = some st2) :
    cursor_ok st2 = true := by
  by_cases hed : st.editing.is_editing = true
  · rw [handle_events_editing env (KeyCode.Char 'D') st hed, handle_editing_char] at h
    simp only [Option.some.injEq] at h
    subst h
    simpa [cursor_ok] using hok
  · exact delete_step_cursor_ok env st st2 (by simpa using hed) h

/-- C5: every successful delete-task dispatch (the `D` key while viewing)
leaves the cursor within `[0, len]` of the post-removal list, and any
sequence of `D` dispatches from a state with a valid cursor ends with a valid
cursor. -/
theorem c5_delete_keeps_cursor_in_range :
    (∀ env st st2, st.editing.is_editing = false →
      handle_events env (KeyCode.Char 'D') st = some st2 → cursor_ok st2 = true) ∧
    (∀ env n st st2, cursor_ok st = true → iterD env n st = some st2 →
      cursor_ok st2 = true) := by
  refine ⟨delete_step_cursor_ok, ?_⟩
  intro env n
  induction n with
  | zero =>
    intro st st2 hok h
    simp [iterD] at h
    subst h
    exact hok
  | succ n ih =>
    intro st st2 hok h
    simp only [iterD, Option.bind_eq_some] at h
    obtain ⟨st1, h1, h2⟩ := h
    exact ih st1 st2 (delete_step_cursor_ok_of_ok env st st1 hok h1) h2

/-- Witness for C5 at a concrete input: deleting twice from a two-task list
empties it and the cursor stays in range. -/
theorem c5_delete_keeps_cursor_in_range_witness :
    cursor_ok (Move.new [mkTask "A", mkTask "B"]) = true ∧
    iterD env0 2 (Move.new [mkTask "A", mkTask "B"]) =
      some { tasks := [], selected := some 0, exit := SessionExit.Continue,
             show_help := false, editing := Editing.None } ∧
    cursor_ok { tasks := [], selected := some 0, exit := SessionExit.Continue,
                show_help := false, editing := Editing.None } = true :=
  ⟨by decide, by decide,
   c5_delete_keeps_cursor_in_range.2 env0 2 (Move.new [mkTask "A", mkTask "B"]) _
     (by decide) (by decide)⟩

/-- C6: while a field edit is in progress, every input event keeps the
session outcome undecided, the cursor and the list order unchanged;
characters append to the buffer, backspace pops it, any key other than the
commit key leaves the session in the Editing state with the task list fully
untouched, and the commit key (`Enter`) is the only transition back to
Viewing, writing the buffer into the target record's field. -/
theorem c6_editing_is_modal (st : MoveSt) (env : Env) (key : KeyCode)
    (hEd : st.editing.is_editing = true) :
    ∃ st2, handle_events env key st = some st2 ∧
      st2.exit = st.exit ∧
      st2.selected = st.selected ∧
      st2.tasks.map Task.id = st.tasks.map Task.id ∧
      (key ≠ KeyCode.Enter → st2.editing.is_editing = true ∧ st2.tasks = st.tasks) ∧
      (∀ c, key = KeyCode.Char c → st2.editing = st.editing.push_char c) ∧
      (key = KeyCode.Backspace → st2.editing = st.editing.pop_char) ∧
      (key = KeyCode.Enter → st2.editing = Editing.None ∧
        (∀ idx val, st.editing = Editing.Desc idx val →
          st2.tasks = setTask st.tasks idx (fun t => { t with description := val })) ∧
        (∀ idx val, st.editing = Editing.Note idx val →
          st2.tasks = setTask st.tasks idx (fun t => { t with note := val })) ∧
        (∀ idx val, st.editing = Editing.Tags idx val →
          st2.tasks = setTask st.tasks idx (fun t => { t with tags := split_comma val }))) := by
  refine ⟨handle_editing key st, handle_events_editing env key st hEd, ?_⟩
  obtain ⟨tasks, sel, ex, sh, ed⟩ := st
  cases ed with
  | None => simp [Editing.is_editing] at hEd
  | Desc idx val =>
    cases key <;>
      simp [handle_editing, Editing.push_char, Editing.pop_char, Editing.is_editing] <;>
      exact setTask_map_id tasks idx _ (fun t => rfl)
  | Note idx val =>
    cases key <;>
      simp [handle_editing, Editing.push_char, Editing.pop_char, Editing.is_editing] <;>
      exact setTask_map_id tasks idx _ (fun t => rfl)
  | Tags idx val =>
    cases key <;>
      simp [handle_editing, Editing.push_char, Editing.pop_char, Editing.is_editing] <;>
      exact setTask_map_id tasks idx _ (fun t => rfl)

/-- Witness for C6 at a concrete input: while editing a description, the
save-and-exit key `q` is swallowed into the buffer and decides nothing. -/
theorem c6_editing_is_modal_witness :
    ({ Move.new [mkTask "A"] with editing := Editing.Desc 0 "ab" } : MoveSt).editing.is_editing =
      true ∧
    (∃ st2, handle_events env0 (KeyCode.Char 'q')
        { Move.new [mkTask "A"] with editing := Editing.Desc 0 "ab" } = some st2 ∧
      st2.exit = SessionExit.Continue ∧
      st2.selected = some 0 ∧
      st2.editing = Editing.Desc 0 (string_push "ab" 'q')) :=
  ⟨by decide,
   match c6_editing_is_modal { Move.new [mkTask "A"] with editing := Editing.Desc 0 "ab" }
       env0 (KeyCode.Char 'q') (by decide) with
   | ⟨st2, h1, h2, h3, _, _, h6, _⟩ => ⟨st2, h1, h2, h3, h6 'q' rfl⟩⟩

theorem getElem?_insertIdx_self {α : Type} :
    ∀ (l : List α) (x : α) (n : Nat), n ≤ l.length → (l.insertIdx n x)[n]? = some x
  | _, _, 0, _ => by simp [List.insertIdx_zero]
  | a :: l, x, n + 1, h => by
    simp only [List.insertIdx_succ_cons, List.getElem?_cons_succ]
    exact getElem?_insertIdx_self l x n (by simpa using h)
  | [], _, n + 1, h => by simp at h

theorem getElem?_insertIdx_gt {α : Type} :
    ∀ (l : List α) (x : α) (n m : Nat), n < m → (l.insertIdx n x)[m]? = l[m - 1]?
  | l, x, 0, m, h => by
    obtain ⟨k, rfl⟩ : ∃ k, m = k + 1 := ⟨m - 1, by omega⟩
    simp [List.insertIdx_zero]
  | [], x, n + 1, m, h => by simp [List.insertIdx_succ_nil]
  | a :: l, x, n + 1, m, h => by
    obtain ⟨k, rfl⟩ : ∃ k, m = k + 1 := ⟨m - 1, by omega⟩
    have hk : n < k := by omega
    simp only [List.insertIdx_succ_cons, List.getElem?_cons_succ]
    rw [getElem?_insertIdx_gt l x n k hk]
    obtain ⟨j, rfl⟩ : ∃ j, k = j + 1 := ⟨k - 1, by omega⟩
    simp

/-- C3: for any two distinct valid pre-removal indices, `reposition` removes
the record at the source index and reinserts it immediately before the record
that sat at the target index before the removal, the insertion index being
the target minus one exactly when the source is smaller; and the concrete
scenario: on `[A, B, C]` with the cursor at index 0, one shift-later key
yields `[B, A, C]` with the cursor at index 1. -/
theorem c3_reposition_inserts_before_original (l : List TodoTask) (f t : Nat)
    (hf : f < l.length) (ht : t < l.length) (hne : f ≠ t) :
    (∃ r : List TodoTask × Nat,
      reposition l f t = some r ∧
      r.2 = (if f < t then t - 1 else t) ∧
      r.1.length = l.length ∧
      r.1[r.2]? = l[f]? ∧
      r.1[r.2 + 1]? = l[t]?) ∧
    handle_events env0 (KeyCode.Char '-') (Move.new [mkTask "A", mkTask "B", mkTask "C"]) =
      some { tasks := [mkTask "B", mkTask "A", mkTask "C"], selected := some 1,
             exit := SessionExit.Continue, show_help := false, editing := Editing.None } := by
  constructor
  · have hget : l[f]? = some (l.get ⟨f, hf⟩) := by simp [List.getElem?_eq_getElem hf]
    have hlen : (l.eraseIdx f).length = l.length - 1 := List.length_eraseIdx_of_lt hf
    set b := if f < t then t - 1 else t with hb
    have hble : b ≤ (l.eraseIdx f).length := by
      rw [hlen, hb]
      split <;> omega
    refine ⟨((l.eraseIdx f).insertIdx b (l.get ⟨f, hf⟩), b), ?_, rfl, ?_, ?_, ?_⟩
    · unfold reposition
      rw [← hb, hget]
      simp only [if_pos hble]
    · rw [List.length_insertIdx b _ hble, hlen]
      omega
    · rw [getElem?_insertIdx_self _ _ b hble, hget]
    · by_cases hlt : f < t
      · have hbt : b = t - 1 := by rw [hb, if_pos hlt]
        have hblt : b < b + 1 := by omega
        rw [getElem?_insertIdx_gt _ _ b (b + 1) hblt]
        have hsimp : b + 1 - 1 = b := by omega
        rw [hsimp, List.getElem?_eraseIdx_of_ge l f b (by omega)]
        have hbt1 : b + 1 = t := by omega
        rw [hbt1]
      · have hbt : b = t := by rw [hb, if_neg hlt]
        have hblt : b < b + 1 := by omega
        rw [getElem?_insertIdx_gt _ _ b (b + 1) hblt]
        have hsimp : b + 1 - 1 = b := by omega
        rw [hsimp, List.getElem?_eraseIdx_of_lt l f b (by omega), hbt]
  · decide

/-- Witness for C3 at a concrete input: repositioning index 2 before index 0
in a three-element list. -/
theorem c3_reposition_inserts_before_original_witness :
    ((2 : Nat) < 3 ∧ (0 : Nat) < 3 ∧ (2 : Nat) ≠ 0) ∧
    (∃ r : List TodoTask × Nat,
      reposition [mkTask "A", mkTask "B", mkTask "C"] 2 0 = some r ∧
      r.2 = (if 2 < 0 then 0 - 1 else 0) ∧
      r.1.length = ([mkTask "A", mkTask "B", mkTask "C"] : List TodoTask).length ∧
      r.1[r.2]? = ([mkTask "A", mkTask "B", mkTask "C"] : List TodoTask)[2]? ∧
      r.1[r.2 + 1]? = ([mkTask "A", mkTask "B", mkTask "C"] : List TodoTask)[0]?) :=
  ⟨⟨by decide, by decide, by decide⟩,
   (c3_reposition_inserts_before_original [mkTask "A", mkTask "B", mkTask "C"] 2 0
     (by decide) (by decide) (by decide)).1⟩

/-- C2 is false of the code: the out-of-bounds branch of `Vec::remove` is
reachable through the dispatcher. On the initial cursor 0 of an empty list
the `D` key removes at index 0 of an empty list, and after one `Down` on a
one-task list the cursor sits at `len`, so the shift-earlier key removes at
index `len`; both are the panic branch, modelled as `none`. -/
theorem c2_dispatch_out_of_bounds_reachable :
    handle_events env0 (KeyCode.Char 'D') (Move.new []) = none ∧
    run_loop (Move.new [mkTask "A"]) [(env0, KeyCode.Down), (env0, KeyCode.Char '=')] =
      none := by
  decide

/-- C1 is false of the code: the session mutates the caller's list in place,
so a `Forget` outcome does not restore the in-memory list passed to
`Move::new`; deleting a task and then discarding leaves the in-memory list
shortened. -/
theorem c1_counterexample_forget_keeps_mutation :
    (run_loop (Move.new [mkTask "A", mkTask "B"])
        [(env0, KeyCode.Char 'D'), (env0, KeyCode.Char 'X')]).map MoveSt.exit =
      some SessionExit.Forget ∧
    (run_loop (Move.new [mkTask "A", mkTask "B"])
        [(env0, KeyCode.Char 'D'), (env0, KeyCode.Char 'X')]).map MoveSt.tasks ≠
      some [mkTask "A", mkTask "B"] := by
  decide

/-- C1 (amended): when the session ends with the discard key (`Forget`
outcome), `move_interactive` does not write the session's list back, so the
stored open-task list is unchanged; the in-memory list handed to `Move::new`,
by contrast, keeps the session's mutations. -/
theorem c1_forget_preserves_stored_list (store : List TodoTask)
    (events : List (Env × KeyCode)) (st : MoveSt)
    (h : run_loop (Move.new store) events = some st)
    (hf : st.exit = SessionExit.Forget) :
    move_interactive store events = some store := by
  simp [move_interactive, h, run_result, hf]

/-- Witness for C1 at a concrete input: delete one of two tasks, discard; the
stored list is unchanged. -/
theorem c1_forget_preserves_stored_list_witness :
    run_loop (Move.new [mkTask "A", mkTask "B"])
        [(env0, KeyCode.Char 'D'), (env0, KeyCode.Char 'X')] =
      some { tasks := [mkTask "B"], selected := some 0, exit := SessionExit.Forget,
             show_help := false, editing := Editing.None } ∧
    ({ tasks := [mkTask "B"], selected := some 0, exit := SessionExit.Forget,
       show_help := false, editing := Editing.None } : MoveSt).exit = SessionExit.Forget ∧
    move_interactive [mkTask "A", mkTask "B"]
        [(env0, KeyCode.Char 'D'), (env0, KeyCode.Char 'X')] =
      some [mkTask "A", mkTask "B"] :=
  ⟨by decide, by decide,
   c1_forget_preserves_stored_list [mkTask "A", mkTask "B"]
     [(env0, KeyCode.Char 'D'), (env0, KeyCode.Char 'X')]
     { tasks := [mkTask "B"], selected := some 0, exit := SessionExit.Forget,
       show_help := false, editing := Editing.None }
     (by decide) (by decide)⟩

end Ivly
